import Mathlib

/-!
# G.711 µ-law companding (`baixoNivel/g711.c`)

A shallow embedding of the sample-level codec of `g711.c` and the properties
of it that the design document states.

Conventions of the embedding

* a C `short` or `int` value is an `Int`; every assignment to a `short`
  variable goes through `toShort`, the two's-complement narrowing to 16 bits;
* a C `unsigned char` value is a `Nat` below 256; every assignment to an
  `unsigned char` goes through `toUChar`, reduction modulo 256;
* `>>` on a signed operand is the arithmetic shift (`Int.shiftRight`), `<<`
  is multiplication by a power of two, and `&`, `|`, `^`, `~` are the
  two's-complement operations `Int.land`, `Int.lor`, `Int.xor`, `Int.lnot`;
* a buffer is a function from indices to values; a buffer reached through the
  cast `(short*)` is indexed by sample, and a store is `Function.update`.
-/

namespace G711

/-- Narrowing conversion of a C `int` to `short` (16-bit two's complement). -/
def toShort (x : Int) : Int := (x + 32768) % 65536 - 32768

/-- Narrowing conversion of a C `int` to `unsigned char`. -/
def toUChar (x : Int) : Nat := (x % 256).toNat

/-- Macro `G711_ULAW` of `g711.h`. -/
def G711_ULAW : Int := 0

/-- Macro `G711_ALAW` of `g711.h`. -/
def G711_ALAW : Int := 1

/-- The table `seg_end[8]` of `g711.c`. -/
def seg_end : List Int := [0xFF, 0x1FF, 0x3FF, 0x7FF, 0xFFF, 0x1FFF, 0x3FFF, 0x7FFF]

/-- The `for` loop of `search`, started at index `i`.  The first argument
bounds the number of iterations still allowed; `search` passes `size`, which
the loop can never exceed because `i` grows by one in each round.  A read
`table[i]` past the end of the list (undefined in C) yields `0`; it does not
occur when the list has at least `size` entries. -/
def searchLoop (val : Int) (table : List Int) (size : Int) : Nat → Int → Int
  | 0, _ => size
  | fuel + 1, i =>
    if i < size then
      if val ≤ table.getD i.toNat 0 then i
      else searchLoop val table size fuel (toShort (i + 1))
    else size

/-- Function `search` of `g711.c`. -/
def search (val : Int) (table : List Int) (size : Int) : Int :=
  searchLoop val table size size.toNat 0

/-- Function `linear_to_ulaw` of `g711.c`. -/
def linear_to_ulaw (pcm_val : Int) : Nat :=
  let pcm_val := toShort (pcm_val >>> (2 : Nat))
  let mask : Int := if pcm_val < 0 then 0x7F else 0xFF
  let pcm_val := if pcm_val < 0 then toShort (-pcm_val) else pcm_val
  let pcm_val := if pcm_val > 8158 then 8158 else pcm_val
  let pcm_val := toShort (pcm_val + 33)
  let seg := search pcm_val seg_end 8
  if seg ≥ 8 then toUChar (Int.xor 0x7F mask)
  else
    let uval := toUChar (Int.lor (seg * 2 ^ 4) (Int.land (pcm_val >>> (seg + 3).toNat) 0x0F))
    toUChar (Int.xor uval mask)

/-- Function `ulaw_to_linear` of `g711.c`. -/
def ulaw_to_linear (u_val : Nat) : Int :=
  let u_val := toUChar (Int.lnot u_val)
  let t := toShort (Int.land u_val 0x0F * 2 ^ 3 + 33)
  let t := toShort (t * 2 ^ (Int.land u_val 0x70 >>> (4 : Nat)).toNat)
  if Int.land u_val 0x80 ≠ 0 then toShort (33 - t) else toShort (t - 33)

/-- Function `linear_to_g711` of `g711.c`. -/
def linear_to_g711 (pcm_val : Int) (format : Int) : Nat :=
  if format = G711_ULAW then linear_to_ulaw pcm_val
  else 0

/-- Function `g711_to_linear` of `g711.c`. -/
def g711_to_linear (g711_val : Nat) (format : Int) : Int :=
  if format = G711_ULAW then ulaw_to_linear g711_val
  else 0

/-- The segment and quantisation fields that `linear_to_ulaw` packs for a
biased magnitude `p` in `[33, 8191]`, as one number `16 * seg + low`. -/
def chord (p : Int) : Int :=
  if p ≤ 255 then p / 8 % 16 else if p ≤ 511 then 16 + p / 16 % 16
  else if p ≤ 1023 then 32 + p / 32 % 16 else if p ≤ 2047 then 48 + p / 64 % 16
  else if p ≤ 4095 then 64 + p / 128 % 16 else 80 + p / 256 % 16

/-- The value of `pcm_val` in `linear_to_ulaw` after the shift, the negation,
the clamp and the bias, computed without narrowing. -/
def biased (x : Int) : Int :=
  (if (if x / 4 < 0 then -(x / 4) else x / 4) > 8158 then 8158
   else (if x / 4 < 0 then -(x / 4) else x / 4)) + 33

/-- Narrowing conversion to a C `int` (32-bit two's complement). -/
def toInt (x : Int) : Int := (x + 2147483648) % 4294967296 - 2147483648

/-- The `for` loop of `encode_ulaw`, started at index `i` with the output buffer
`ulaw_out`.  `pcm` is the input buffer seen through the cast `(short*)pcm_in`,
one 16-bit sample per index; the two buffers do not overlap.  The first
argument bounds the number of rounds; `encode_ulaw` passes `num_samples`. -/
def encode_ulaw_loop (pcm : Nat → Int) (num_samples : Int) :
    Nat → Int → (Nat → Nat) → (Nat → Nat)
  | 0, _, ulaw_out => ulaw_out
  | fuel + 1, i, ulaw_out =>
    if i < num_samples then
      encode_ulaw_loop pcm num_samples fuel (toInt (i + 1))
        (Function.update ulaw_out i.toNat (linear_to_ulaw (pcm i.toNat)))
    else ulaw_out

/-- Function `encode_ulaw` of `g711.c`: the content of the output buffer after
the call.  The C division `pcm_len / 2` truncates towards zero. -/
def encode_ulaw (pcm : Nat → Int) (pcm_len : Int) (ulaw_out : Nat → Nat) : Nat → Nat :=
  let num_samples := toInt (Int.tdiv pcm_len 2)
  encode_ulaw_loop pcm num_samples num_samples.toNat 0 ulaw_out

/-- The `for` loop of `decode_ulaw`, started at index `i`.  `pcm` is the output
buffer seen through the cast `(short*)pcm_out`, one 16-bit sample per index;
the two buffers do not overlap. -/
def decode_ulaw_loop (ulaw_in : Nat → Nat) (ulaw_len : Int) :
    Nat → Int → (Nat → Int) → (Nat → Int)
  | 0, _, pcm => pcm
  | fuel + 1, i, pcm =>
    if i < ulaw_len then
      decode_ulaw_loop ulaw_in ulaw_len fuel (toInt (i + 1))
        (Function.update pcm i.toNat (ulaw_to_linear (ulaw_in i.toNat)))
    else pcm

/-- Function `decode_ulaw` of `g711.c`: the content of the output buffer after
the call. -/
def decode_ulaw (ulaw_in : Nat → Nat) (ulaw_len : Int) (pcm : Nat → Int) : Nat → Int :=
  decode_ulaw_loop ulaw_in ulaw_len ulaw_len.toNat 0 pcm

/-- The arithmetic reference of the decoder, following the words of the design
document: with `c = 255 - b`, `low = c mod 16`, `s = (c div 16) mod 8` and
`t = (8 * low + 33) * 2 ^ s`, the result is `t - 33` when `c < 128` and `33 - t`
otherwise. -/
def ulaw_to_linear_reference (b : Nat) : Int :=
  let c := 255 - b
  let low := c % 16
  let s := c / 16 % 8
  let t : Int := (8 * (low : Int) + 33) * 2 ^ s
  if c < 128 then t - 33 else 33 - t

/-- The variable `t` of `ulaw_to_linear` after the statement `t <<= ...`,
computed in unbounded integers (no narrowing to `short`). -/
def ulaw_t_unbounded (u_val : Nat) : Int :=
  let u_val := toUChar (Int.lnot u_val)
  let t := Int.land u_val 0x0F * 2 ^ 3 + 33
  t * 2 ^ (Int.land u_val 0x70 >>> (4 : Nat)).toNat

/-- Function `ulaw_to_linear` computed in unbounded integers (no narrowing to
`short`). -/
def ulaw_to_linear_unbounded (u_val : Nat) : Int :=
  let t := ulaw_t_unbounded u_val
  let u_val := toUChar (Int.lnot u_val)
  if Int.land u_val 0x80 ≠ 0 then 33 - t else t - 33

/-- The byte whose decoding is `v`, for a value `v` in the range of
`ulaw_to_linear`; the value `0` is given the code `0xFF`. -/
def ulaw_code_of (v : Int) : Nat :=
  let t := (if v < 0 then -v else v) + 33
  let s : Nat :=
    if t % 2 = 1 then 0 else if t % 4 = 2 then 1 else if t % 8 = 4 then 2
    else if t % 16 = 8 then 3 else if t % 32 = 16 then 4 else if t % 64 = 32 then 5
    else if t % 128 = 64 then 6 else 7
  let low := ((t / 2 ^ s - 33) / 8).toNat
  255 - ((if v < 0 then 128 else 0) + 16 * s + low)

/-- The variable `pcm_val` of `linear_to_ulaw` when the segment search is
called: after the shift, the negation, the clamp and the bias, each narrowed to
`short` as in the source. -/
def ulaw_pcm (pcm_val : Int) : Int :=
  let pcm_val := toShort (pcm_val >>> (2 : Nat))
  let pcm_val := if pcm_val < 0 then toShort (-pcm_val) else pcm_val
  let pcm_val := if pcm_val > 8158 then 8158 else pcm_val
  toShort (pcm_val + 33)

/-- The variable `mask` of `linear_to_ulaw`. -/
def ulaw_mask (pcm_val : Int) : Int :=
  if toShort (pcm_val >>> (2 : Nat)) < 0 then 0x7F else 0xFF

/-- The variable `seg` of `linear_to_ulaw`. -/
def ulaw_seg (pcm_val : Int) : Int := search (ulaw_pcm pcm_val) seg_end 8

/-- The shifted value `pcm_val >> 2` of `linear_to_ulaw`, without narrowing. -/
def pcm_shifted (pcm_val : Int) : Int := pcm_val >>> (2 : Nat)

/-- The negation of the shifted value, without narrowing. -/
def pcm_negated (pcm_val : Int) : Int := -pcm_shifted pcm_val

/-- The magnitude after the clamp to `8158`, without narrowing. -/
def pcm_clamped (pcm_val : Int) : Int :=
  let m := if pcm_shifted pcm_val < 0 then pcm_negated pcm_val else pcm_shifted pcm_val
  if m > 8158 then 8158 else m

/-- The clamped magnitude plus the bias `33`, without narrowing. -/
def pcm_biased (pcm_val : Int) : Int := pcm_clamped pcm_val + 33

/-- Function `linear_to_ulaw` computed in unbounded integers: the statements of
the source without the narrowing of `pcm_val` to `short`. -/
def linear_to_ulaw_unbounded (pcm_val : Int) : Nat :=
  let mask : Int := if pcm_shifted pcm_val < 0 then 0x7F else 0xFF
  let pcm_val := pcm_biased pcm_val
  let seg := search pcm_val seg_end 8
  if seg ≥ 8 then toUChar (Int.xor 0x7F mask)
  else
    let uval := toUChar (Int.lor (seg * 2 ^ 4) (Int.land (pcm_val >>> (seg + 3).toNat) 0x0F))
    toUChar (Int.xor uval mask)

/-! ## Auxiliary lemmas -/

theorem toShort_of_range (x : Int) (h1 : -32768 ≤ x) (h2 : x ≤ 32767) : toShort x = x := by
  unfold toShort; omega

theorem searchLoop_succ (val : Int) (table : List Int) (size : Int) (fuel : Nat) (i : Int) :
    searchLoop val table size (fuel + 1) i =
      if i < size then
        if val ≤ table.getD i.toNat 0 then i
        else searchLoop val table size fuel (toShort (i + 1))
      else size := rfl

theorem search_seg_end (v : Int) : search v seg_end 8 =
    if v ≤ 255 then 0 else if v ≤ 511 then 1 else if v ≤ 1023 then 2
    else if v ≤ 2047 then 3 else if v ≤ 4095 then 4 else if v ≤ 8191 then 5
    else if v ≤ 16383 then 6 else if v ≤ 32767 then 7 else 8 := by
  have h8 : (8 : Int).toNat = 0 + 1 + 1 + 1 + 1 + 1 + 1 + 1 + 1 := rfl
  unfold search
  rw [h8]
  simp only [searchLoop_succ, seg_end]
  simp [toShort, searchLoop]

theorem land15 (y : Int) (hy : 0 ≤ y) : Int.land y 0x0F = y % 16 := by
  obtain ⟨n, rfl⟩ := Int.eq_ofNat_of_zero_le hy
  show ((n &&& 15 : Nat) : Int) = _
  have := Nat.and_pow_two_sub_one_eq_mod n 4
  norm_num at this
  rw [this]; rfl

theorem compose_byte : ∀ seg : Fin 8, ∀ low : Fin 16,
    toUChar (Int.xor (toUChar (Int.lor ((seg.val : Int) * 2 ^ 4) (low.val : Int))) 0xFF)
      = 255 - (16 * seg.val + low.val) ∧
    toUChar (Int.xor (toUChar (Int.lor ((seg.val : Int) * 2 ^ 4) (low.val : Int))) 0x7F)
      = 127 - (16 * seg.val + low.val) := by
  decide


theorem compose_int (seg low : Int) (hs0 : 0 ≤ seg) (hs : seg < 8) (hl0 : 0 ≤ low)
    (hl : low < 16) :
    toUChar (Int.xor (toUChar (Int.lor (seg * 2 ^ 4) low)) 0xFF)
      = (255 - (16 * seg + low)).toNat ∧
    toUChar (Int.xor (toUChar (Int.lor (seg * 2 ^ 4) low)) 0x7F)
      = (127 - (16 * seg + low)).toNat := by
  obtain ⟨a, rfl⟩ := Int.eq_ofNat_of_zero_le hs0
  obtain ⟨b, rfl⟩ := Int.eq_ofNat_of_zero_le hl0
  have ha : a < 8 := by omega
  have hb : b < 16 := by omega
  have h := compose_byte ⟨a, ha⟩ ⟨b, hb⟩
  simp only at h
  constructor
  · rw [h.1]; omega
  · rw [h.2]; omega

theorem encode_segment (p mask k : Int) (n : Nat) (hk0 : 0 ≤ k) (hk : k < 8)
    (hn : (k + 3).toNat = n) (hp : 0 ≤ p) (hm : mask = 0xFF ∨ mask = 0x7F) :
    toUChar (Int.xor (toUChar (Int.lor (k * 2 ^ 4)
        (Int.land (p >>> (k + 3).toNat) 0x0F))) mask)
      = (mask - (16 * k + p / 2 ^ n % 16)).toNat := by
  have hq : 0 ≤ p / 2 ^ n := Int.ediv_nonneg hp (by positivity)
  have hcast : ((2 ^ n : Nat) : Int) = 2 ^ n := by push_cast; rfl
  rw [hn, Int.shiftRight_eq_div_pow, hcast, land15 _ hq]
  have hc := compose_int k (p / 2 ^ n % 16) hk0 hk (by omega) (by omega)
  rcases hm with rfl | rfl
  · exact hc.1
  · exact hc.2

theorem encode_tail (p mask : Int) (hp : 33 ≤ p) (hp2 : p ≤ 8191)
    (hm : mask = 0xFF ∨ mask = 0x7F) :
    (if search p seg_end 8 ≥ 8 then toUChar (Int.xor 0x7F mask)
     else toUChar (Int.xor (toUChar (Int.lor (search p seg_end 8 * 2 ^ 4)
        (Int.land (p >>> (search p seg_end 8 + 3).toNat) 0x0F))) mask))
      = (mask - chord p).toNat := by
  rw [search_seg_end]
  unfold chord
  split_ifs <;> first | omega | skip
  · rw [encode_segment p mask 0 3 (by omega) (by omega) rfl (by omega) hm]; norm_num
  · rw [encode_segment p mask 1 4 (by omega) (by omega) rfl (by omega) hm]; norm_num
  · rw [encode_segment p mask 2 5 (by omega) (by omega) rfl (by omega) hm]; norm_num
  · rw [encode_segment p mask 3 6 (by omega) (by omega) rfl (by omega) hm]; norm_num
  · rw [encode_segment p mask 4 7 (by omega) (by omega) rfl (by omega) hm]; norm_num
  · rw [encode_segment p mask 5 8 (by omega) (by omega) rfl (by omega) hm]; norm_num

theorem biased_range (x : Int) :
    33 ≤ biased x ∧ biased x ≤ 8191 := by
  unfold biased; split_ifs <;> omega

theorem linear_to_ulaw_eq (x : Int) (h1 : -32768 ≤ x) (h2 : x ≤ 32767) :
    linear_to_ulaw x = ((if x < 0 then 127 else 255) - chord (biased x)).toNat := by
  have hs : x >>> (2 : Nat) = x / 4 := by
    rw [Int.shiftRight_eq_div_pow]; norm_num
  have hb := biased_range x
  have hsh : toShort (x / 4) = x / 4 := toShort_of_range _ (by omega) (by omega)
  unfold linear_to_ulaw
  simp only [hs, hsh]
  have hneg : toShort (-(x / 4)) = -(x / 4) := toShort_of_range _ (by omega) (by omega)
  rw [hneg]
  have hbi : toShort ((if (if x / 4 < 0 then -(x / 4) else x / 4) > 8158 then 8158
      else (if x / 4 < 0 then -(x / 4) else x / 4)) + 33) = biased x := by
    show toShort (biased x) = biased x
    exact toShort_of_range _ (by omega) (by omega)
  rw [hbi]
  have hmask : (if x / 4 < 0 then (0x7F : Int) else 0xFF) = if x < 0 then 127 else 255 := by
    split_ifs <;> first | rfl | omega
  rw [hmask]
  exact encode_tail (biased x) _ hb.1 hb.2 (by split_ifs <;> simp)

theorem chord_range (p : Int) :
    0 ≤ chord p ∧ chord p ≤ 95 := by
  unfold chord; split_ifs <;> omega

theorem lnot_eq (z : Int) : Int.lnot z = -z - 1 := by
  cases z with
  | ofNat n => show Int.negSucc n = _; rw [Int.negSucc_eq, Int.ofNat_eq_coe]; omega
  | negSucc n => show (n : Int) = _; rw [Int.negSucc_eq]; omega

theorem searchLoop_spec (val : Int) (table : List Int) (size : Int) (hsize : size ≤ 32767) :
    ∀ (fuel : Nat) (i : Int), 0 ≤ i → i ≤ size → size ≤ i + fuel →
      i ≤ searchLoop val table size fuel i ∧ searchLoop val table size fuel i ≤ size ∧
      (searchLoop val table size fuel i < size →
        val ≤ table.getD (searchLoop val table size fuel i).toNat 0) ∧
      (∀ j : Int, i ≤ j → j < searchLoop val table size fuel i →
        table.getD j.toNat 0 < val) := by
  intro fuel
  induction fuel with
  | zero =>
    intro i _ h1 h2
    have hr : searchLoop val table size 0 i = size := rfl
    rw [hr]
    refine ⟨h1, le_refl _, fun h => absurd h (lt_irrefl _), fun j hj hj2 => ?_⟩
    omega
  | succ fuel ih =>
    intro i h0 h1 h2
    rw [searchLoop_succ]
    by_cases hlt : i < size
    · by_cases hle : val ≤ table.getD i.toNat 0
      · rw [if_pos hlt, if_pos hle]
        exact ⟨le_refl _, h1, fun _ => hle, fun j hj hj2 => by omega⟩
      · rw [if_pos hlt, if_neg hle, toShort_of_range (i + 1) (by omega) (by omega)]
        obtain ⟨a, b, c, d⟩ := ih (i + 1) (by omega) (by omega) (by push_cast at h2; omega)
        refine ⟨by omega, b, c, fun j hj hj2 => ?_⟩
        by_cases hji : j = i
        · rw [hji]; exact lt_of_not_ge hle
        · exact d j (by omega) hj2
    · rw [if_neg hlt]
      refine ⟨h1, le_refl _, fun h => absurd h (lt_irrefl _), fun j hj hj2 => ?_⟩
      omega

theorem search_spec (val : Int) (table : List Int) (size : Int)
    (h0 : 0 ≤ size) (hsize : size ≤ 32767) :
    0 ≤ search val table size ∧ search val table size ≤ size ∧
    (search val table size < size →
      val ≤ table.getD (search val table size).toNat 0) ∧
    (∀ j : Nat, (j : Int) < search val table size → table.getD j 0 < val) := by
  unfold search
  obtain ⟨a, b, c, d⟩ := searchLoop_spec val table size hsize size.toNat 0 (le_refl _) h0
    (by rw [Int.toNat_of_nonneg h0]; omega)
  refine ⟨a, b, c, fun j hj => ?_⟩
  have := d (j : Int) (Int.ofNat_nonneg _) hj
  simpa using this

theorem search_mono (table : List Int) (size : Int) (h0 : 0 ≤ size) (hsize : size ≤ 32767)
    (v w : Int) (h : v ≤ w) : search v table size ≤ search w table size := by
  obtain ⟨_, bv, _, dv⟩ := search_spec v table size h0 hsize
  obtain ⟨aw, _, cw, _⟩ := search_spec w table size h0 hsize
  by_contra hlt
  have hlt2 : search w table size < search v table size := lt_of_not_ge hlt
  have h1 := cw (lt_of_lt_of_le hlt2 bv)
  have h2 := dv (search w table size).toNat (by rw [Int.toNat_of_nonneg aw]; exact hlt2)
  omega

set_option maxRecDepth 10000 in
/-- Re-encoding a decoded byte gives the byte back for the two codes `0x7A` and
`0xFA` only. -/
theorem reencode_fixed_codes : ∀ b : Fin 256,
    linear_to_ulaw (ulaw_to_linear b.val) = b.val ↔ (b.val = 0x7A ∨ b.val = 0xFA) := by
  decide

set_option maxRecDepth 10000 in
theorem decode_reference_fin : ∀ b : Fin 256,
    ulaw_to_linear b.val = ulaw_to_linear_reference b.val := by
  decide

set_option maxRecDepth 10000 in
theorem decode_unbounded_fin : ∀ b : Fin 256,
    33 ≤ ulaw_t_unbounded b.val ∧ ulaw_t_unbounded b.val ≤ 19584 ∧
    -19551 ≤ ulaw_to_linear_unbounded b.val ∧ ulaw_to_linear_unbounded b.val ≤ 19551 ∧
    ulaw_to_linear b.val = ulaw_to_linear_unbounded b.val := by
  decide

set_option maxRecDepth 10000 in
theorem decode_odd_fin : ∀ b : Fin 256,
    ulaw_to_linear (b.val ^^^ 0x80) = -ulaw_to_linear b.val := by
  decide

set_option maxRecDepth 10000 in
theorem decode_code_of_fin : ∀ b : Fin 256,
    b.val ≠ 0x7F → ulaw_code_of (ulaw_to_linear b.val) = b.val := by
  decide

set_option maxRecDepth 10000 in
theorem decode_zero_fin : ∀ c : Fin 256,
    ulaw_to_linear c.val = 0 ↔ (c.val = 0x7F ∨ c.val = 0xFF) := by
  decide

theorem toInt_of_range (x : Int) (h1 : -2147483648 ≤ x) (h2 : x ≤ 2147483647) :
    toInt x = x := by
  unfold toInt; omega

theorem encode_ulaw_loop_succ (pcm : Nat → Int) (n : Int) (fuel : Nat) (i : Int)
    (out : Nat → Nat) :
    encode_ulaw_loop pcm n (fuel + 1) i out =
      if i < n then
        encode_ulaw_loop pcm n fuel (toInt (i + 1))
          (Function.update out i.toNat (linear_to_ulaw (pcm i.toNat)))
      else out := rfl

theorem encode_ulaw_loop_spec (pcm : Nat → Int) (n : Int) (hn : n ≤ 2147483647) :
    ∀ (fuel : Nat) (i : Int) (out : Nat → Nat), 0 ≤ i → n ≤ i + fuel → ∀ k : Nat,
      encode_ulaw_loop pcm n fuel i out k =
        if i ≤ (k : Int) ∧ (k : Int) < n then linear_to_ulaw (pcm k) else out k := by
  intro fuel
  induction fuel with
  | zero =>
    intro i out _ h2 k
    have hr : encode_ulaw_loop pcm n 0 i out = out := rfl
    rw [hr, if_neg (by omega)]
  | succ fuel ih =>
    intro i out h1 h2 k
    rw [encode_ulaw_loop_succ]
    by_cases hlt : i < n
    · rw [if_pos hlt, toInt_of_range (i + 1) (by omega) (by omega),
        ih (i + 1) _ (by omega) (by push_cast at h2; omega) k]
      by_cases hk : k = i.toNat
      · have hki : (k : Int) = i := by rw [hk, Int.toNat_of_nonneg h1]
        rw [if_neg (by omega), if_pos (by omega), hk, Function.update_same]
      · have hki : (k : Int) ≠ i := fun h => hk (by rw [← h]; rfl)
        rw [Function.update_noteq hk]
        by_cases hc : i ≤ (k : Int) ∧ (k : Int) < n
        · rw [if_pos hc, if_pos (by omega)]
        · rw [if_neg hc, if_neg (by omega)]
    · rw [if_neg hlt, if_neg (by omega)]

theorem decode_ulaw_loop_succ (ulaw_in : Nat → Nat) (n : Int) (fuel : Nat) (i : Int)
    (pcm : Nat → Int) :
    decode_ulaw_loop ulaw_in n (fuel + 1) i pcm =
      if i < n then
        decode_ulaw_loop ulaw_in n fuel (toInt (i + 1))
          (Function.update pcm i.toNat (ulaw_to_linear (ulaw_in i.toNat)))
      else pcm := rfl

theorem decode_ulaw_loop_spec (ulaw_in : Nat → Nat) (n : Int) (hn : n ≤ 2147483647) :
    ∀ (fuel : Nat) (i : Int) (pcm : Nat → Int), 0 ≤ i → n ≤ i + fuel → ∀ k : Nat,
      decode_ulaw_loop ulaw_in n fuel i pcm k =
        if i ≤ (k : Int) ∧ (k : Int) < n then ulaw_to_linear (ulaw_in k) else pcm k := by
  intro fuel
  induction fuel with
  | zero =>
    intro i pcm _ h2 k
    have hr : decode_ulaw_loop ulaw_in n 0 i pcm = pcm := rfl
    rw [hr, if_neg (by omega)]
  | succ fuel ih =>
    intro i pcm h1 h2 k
    rw [decode_ulaw_loop_succ]
    by_cases hlt : i < n
    · rw [if_pos hlt, toInt_of_range (i + 1) (by omega) (by omega),
        ih (i + 1) _ (by omega) (by push_cast at h2; omega) k]
      by_cases hk : k = i.toNat
      · have hki : (k : Int) = i := by rw [hk, Int.toNat_of_nonneg h1]
        rw [if_neg (by omega), if_pos (by omega), hk, Function.update_same]
      · have hki : (k : Int) ≠ i := fun h => hk (by rw [← h]; rfl)
        rw [Function.update_noteq hk]
        by_cases hc : i ≤ (k : Int) ∧ (k : Int) < n
        · rw [if_pos hc, if_pos (by omega)]
        · rw [if_neg hc, if_neg (by omega)]
    · rw [if_neg hlt, if_neg (by omega)]

theorem shift_two (x : Int) : x >>> (2 : Nat) = x / 4 := by
  rw [Int.shiftRight_eq_div_pow]; norm_num

theorem linear_to_ulaw_unfold (x : Int) :
    linear_to_ulaw x =
      if ulaw_seg x ≥ 8 then toUChar (Int.xor 0x7F (ulaw_mask x))
      else toUChar (Int.xor (toUChar (Int.lor (ulaw_seg x * 2 ^ 4)
        (Int.land (ulaw_pcm x >>> (ulaw_seg x + 3).toNat) 0x0F))) (ulaw_mask x)) := rfl

theorem ulaw_pcm_eq (x : Int) (h1 : -32768 ≤ x) (h2 : x ≤ 32767) :
    ulaw_pcm x = biased x := by
  have hb := biased_range x
  have hsh : toShort (x / 4) = x / 4 := toShort_of_range _ (by omega) (by omega)
  have hneg : toShort (-(x / 4)) = -(x / 4) := toShort_of_range _ (by omega) (by omega)
  unfold ulaw_pcm
  simp only [shift_two, hsh, hneg]
  show toShort (biased x) = biased x
  exact toShort_of_range _ (by omega) (by omega)

theorem pcm_biased_eq (x : Int) : pcm_biased x = biased x := by
  unfold pcm_biased pcm_clamped pcm_negated pcm_shifted
  simp only [shift_two]
  rfl

theorem search_biased (p : Int) (hp : 33 ≤ p) (hp2 : p ≤ 8191) :
    search p seg_end 8 = chord p / 16 := by
  rw [search_seg_end]
  unfold chord
  split_ifs <;> omega

theorem search_seg_end_lt_eight (v : Int) (hv : v ≤ 32767) : search v seg_end 8 < 8 := by
  rw [search_seg_end]
  split_ifs <;> omega

theorem linear_to_ulaw_unbounded_eq (x : Int) (h1 : -32768 ≤ x) (h2 : x ≤ 32767) :
    linear_to_ulaw_unbounded x = ((if x < 0 then 127 else 255) - chord (biased x)).toNat := by
  have hb := biased_range x
  have hmask : (if pcm_shifted x < 0 then (0x7F : Int) else 0xFF)
      = if x < 0 then 127 else 255 := by
    unfold pcm_shifted
    rw [shift_two]
    split_ifs <;> first | rfl | omega
  unfold linear_to_ulaw_unbounded
  simp only [pcm_biased_eq, hmask]
  exact encode_tail (biased x) _ hb.1 hb.2 (by split_ifs <;> simp)

/-! ## The claims -/

/-- C1 (evaluation at the failing input): the byte `0xFF` decodes to the linear
sample `0`, and `0` is re-encoded as `0xFB`, not as `0xFF`. -/
theorem C1_reencode_of_idle_code :
    ulaw_to_linear 0xFF = 0 ∧ linear_to_ulaw (ulaw_to_linear 0xFF) = 0xFB := by
  decide

/-- C2 (as stated, refuted): the samples `30000` and `32767` are encoded as the
different bytes `0xA2` and `0xA0`. -/
theorem C2_30000_not_saturated :
    linear_to_ulaw 30000 = 0xA2 ∧ linear_to_ulaw 32767 = 0xA0 ∧
      linear_to_ulaw 30000 ≠ linear_to_ulaw 32767 := by
  decide

/-- C2 (amended): a non-negative 16-bit sample `x` is encoded as the same byte as
`32767` exactly when `x ≥ 31612`; in particular every sample from `32632` on, whose
shifted magnitude reaches the clamp `8158`, is. -/
theorem C2_saturation_threshold (x : Int) (h0 : 0 ≤ x) (h2 : x ≤ 32767) :
    linear_to_ulaw x = linear_to_ulaw 32767 ↔ 31612 ≤ x := by
  have hc := chord_range (biased x)
  have hb := biased_range x
  have hbx : (x / 4 > 8158 ∧ biased x = 8191) ∨ (x / 4 ≤ 8158 ∧ biased x = x / 4 + 33) := by
    unfold biased; split_ifs <;> omega
  have h95 : chord (biased 32767) = 95 := by decide
  have key : chord (biased x) = 95 ↔ 7936 ≤ biased x := by
    generalize biased x = p at hb
    unfold chord
    constructor
    · intro h; split_ifs at h <;> omega
    · intro h; split_ifs <;> omega
  rw [linear_to_ulaw_eq x (by omega) h2, linear_to_ulaw_eq 32767 (by omega) (by omega)]
  rw [if_neg (by omega), if_neg (by omega), h95]
  omega

/-- Witness of C2 (amended): the sample `32632` is encoded as `32767` is. -/
theorem C2_saturation_threshold_witness :
    (0 : Int) ≤ 32632 ∧ (32632 : Int) ≤ 32767 ∧
      (linear_to_ulaw 32632 = linear_to_ulaw 32767 ↔ (31612 : Int) ≤ 32632) :=
  ⟨by decide, by decide, C2_saturation_threshold 32632 (by decide) (by decide)⟩

/-- C3: two 16-bit samples of the same sign whose magnitude after the arithmetic
right shift by two is at least `8158` are encoded as the same byte. -/
theorem C3_saturated_inputs_collapse (x y : Int)
    (hx1 : -32768 ≤ x) (hx2 : x ≤ 32767) (hy1 : -32768 ≤ y) (hy2 : y ≤ 32767)
    (hsign : x < 0 ↔ y < 0)
    (hmx : 8158 ≤ |x >>> (2 : Nat)|) (hmy : 8158 ≤ |y >>> (2 : Nat)|) :
    linear_to_ulaw x = linear_to_ulaw y := by
  have hsx : x >>> (2 : Nat) = x / 4 := by rw [Int.shiftRight_eq_div_pow]; norm_num
  have hsy : y >>> (2 : Nat) = y / 4 := by rw [Int.shiftRight_eq_div_pow]; norm_num
  rw [hsx, le_abs] at hmx
  rw [hsy, le_abs] at hmy
  have hbx : biased x = 8191 := by unfold biased; split_ifs <;> omega
  have hby : biased y = 8191 := by unfold biased; split_ifs <;> omega
  rw [linear_to_ulaw_eq x hx1 hx2, linear_to_ulaw_eq y hy1 hy2, hbx, hby]
  by_cases hx : x < 0
  · rw [if_pos hx, if_pos (hsign.mp hx)]
  · rw [if_neg hx, if_neg (fun h => hx (hsign.mpr h))]

/-- Witness of C3: the saturated samples `32700` and `32767`. -/
theorem C3_saturated_inputs_collapse_witness :
    linear_to_ulaw 32700 = linear_to_ulaw 32767 :=
  C3_saturated_inputs_collapse 32700 32767 (by decide) (by decide) (by decide) (by decide)
    (by decide) (by decide) (by decide)

/-- C4: for every 16-bit sample `x`, bit 7 of the complement of `linear_to_ulaw x`
is `0` when `x ≥ 0` (zero included) and `1` when `x < 0`. -/
theorem C4_sign_bit (x : Int) (h1 : -32768 ≤ x) (h2 : x ≤ 32767) :
    (toUChar (Int.lnot (linear_to_ulaw x))).testBit 7 = decide (x < 0) := by
  have hc := chord_range (biased x)
  rw [linear_to_ulaw_eq x h1 h2, lnot_eq, Nat.testBit_to_div_mod]
  unfold toUChar
  by_cases hx : x < 0
  · rw [if_pos hx]
    have : (((-((127 - chord (biased x)).toNat : Int) - 1) % 256).toNat) / 2 ^ 7 % 2 = 1 := by
      omega
    rw [this]; simp [hx]
  · rw [if_neg hx]
    have : (((-((255 - chord (biased x)).toNat : Int) - 1) % 256).toNat) / 2 ^ 7 % 2 = 0 := by
      omega
    rw [this]; simp [hx]

/-- Witness of C4: the sample `0` has sign bit `0`. -/
theorem C4_sign_bit_witness :
    (toUChar (Int.lnot (linear_to_ulaw 0))).testBit 7 = decide ((0 : Int) < 0) :=
  C4_sign_bit 0 (by decide) (by decide)

/-- C5 (evaluation at the failing input): the linear sample `0` is encoded as
`0xFB`, which is neither `0xFF` nor `0x7F`. -/
theorem C5_encode_zero :
    linear_to_ulaw 0 = 0xFB ∧ linear_to_ulaw 0 ≠ 0xFF ∧ linear_to_ulaw 0 ≠ 0x7F := by
  decide

/-- C6 (evaluation at the failing input): encoding the linear sample `0` and
decoding the result yields `32`, four segment-0 steps of `8` away from `0`. -/
theorem C6_zero_roundtrip :
    ulaw_to_linear (linear_to_ulaw 0) = 32 ∧ ¬ |ulaw_to_linear (linear_to_ulaw 0)| ≤ 8 := by
  have h : ulaw_to_linear (linear_to_ulaw 0) = 32 := by decide
  rw [h]
  exact ⟨rfl, by norm_num⟩

/-- C7: for a table of `size` entries, `search val table size` lies in `[0, size]`;
when it is below `size` it indexes an entry that is at least `val`; every entry
before it is smaller than `val`; and it is `size` when no entry is at least `val`. -/
theorem C7_search_least_index (val : Int) (table : List Int) (size : Int)
    (hlen : (table.length : Int) = size) (hsize : size ≤ 32767) :
    0 ≤ search val table size ∧ search val table size ≤ size ∧
    (search val table size < size →
      val ≤ table.getD (search val table size).toNat 0) ∧
    (∀ j : Nat, (j : Int) < search val table size → table.getD j 0 < val) ∧
    ((∀ j : Nat, (j : Int) < size → table.getD j 0 < val) →
      search val table size = size) := by
  have h0 : (0 : Int) ≤ size := by rw [← hlen]; exact Int.ofNat_nonneg _
  obtain ⟨a, b, c, d⟩ := search_spec val table size h0 hsize
  refine ⟨a, b, c, d, fun hall => ?_⟩
  by_contra hne
  have hlt : search val table size < size := lt_of_le_of_ne b hne
  have h1 := c hlt
  have h2 := hall (search val table size).toNat (by rw [Int.toNat_of_nonneg a]; exact hlt)
  exact absurd h1 (not_le.mpr h2)

/-- Witness of C7: the value `600` in the table `seg_end` of eight entries. -/
theorem C7_search_least_index_witness :
    0 ≤ search 600 seg_end 8 ∧ search 600 seg_end 8 ≤ 8 ∧
    (search 600 seg_end 8 < 8 → 600 ≤ seg_end.getD (search 600 seg_end 8).toNat 0) ∧
    (∀ j : Nat, (j : Int) < search 600 seg_end 8 → seg_end.getD j 0 < 600) ∧
    ((∀ j : Nat, (j : Int) < 8 → seg_end.getD j 0 < 600) → search 600 seg_end 8 = 8) :=
  C7_search_least_index 600 seg_end 8 (by decide) (by decide)

/-- C8: on the fixed table `seg_end`, `search` is monotone in the probed value. -/
theorem C8_search_monotone (v w : Int) (h : v ≤ w) :
    search v seg_end 8 ≤ search w seg_end 8 :=
  search_mono seg_end 8 (by decide) (by decide) v w h

/-- Witness of C8: the values `100 ≤ 1000`. -/
theorem C8_search_monotone_witness : search 100 seg_end 8 ≤ search 1000 seg_end 8 :=
  C8_search_monotone 100 1000 (by decide)

/-- C9: with format `G711_ULAW` the two dispatch functions are `linear_to_ulaw` and
`ulaw_to_linear`; with `G711_ALAW`, and with any other format that is not
`G711_ULAW`, both return `0` whatever the input. -/
theorem C9_format_dispatch (x : Int) (b : Nat) (format : Int) :
    linear_to_g711 x G711_ULAW = linear_to_ulaw x ∧
    g711_to_linear b G711_ULAW = ulaw_to_linear b ∧
    linear_to_g711 x G711_ALAW = 0 ∧ g711_to_linear b G711_ALAW = 0 ∧
    (format ≠ G711_ULAW → linear_to_g711 x format = 0 ∧ g711_to_linear b format = 0) := by
  refine ⟨rfl, rfl, rfl, rfl, fun h => ?_⟩
  unfold linear_to_g711 g711_to_linear
  exact ⟨if_neg h, if_neg h⟩

/-- Witness of C9: the sample `1234`, the byte `0x55` and the format value `2`. -/
theorem C9_format_dispatch_witness :
    (2 : Int) ≠ G711_ULAW ∧ linear_to_g711 1234 2 = 0 ∧ g711_to_linear 0x55 2 = 0 :=
  ⟨by decide, (C9_format_dispatch 1234 0x55 2).2.2.2.2 (by decide)⟩

/-- C10: the byte returned by `linear_to_g711 x G711_ALAW` is not the µ-law code of
any 16-bit sample `y`. -/
theorem C10_alaw_encode_distinct (x y : Int) (hy1 : -32768 ≤ y) (hy2 : y ≤ 32767) :
    linear_to_g711 x G711_ALAW ≠ linear_to_ulaw y := by
  have hc := chord_range (biased y)
  have h0 : linear_to_g711 x G711_ALAW = 0 := rfl
  rw [h0, linear_to_ulaw_eq y hy1 hy2]
  split_ifs <;> omega

/-- Witness of C10: the samples `x = 0` and `y = -32768`. -/
theorem C10_alaw_encode_distinct_witness :
    linear_to_g711 0 G711_ALAW ≠ linear_to_ulaw (-32768) :=
  C10_alaw_encode_distinct 0 (-32768) (by decide) (by decide)

/-- C11 (as stated, refuted): the value returned for `G711_ALAW` is the µ-law
decoding of the byte `0xFF`. -/
theorem C11_alaw_decode_collides :
    g711_to_linear 0 G711_ALAW = ulaw_to_linear 0xFF := by
  decide

/-- C11 (amended): for all bytes `b` and `c`, `g711_to_linear b G711_ALAW` equals
`ulaw_to_linear c` exactly when `c` is one of the two zero codes `0x7F` and `0xFF`;
it differs from the µ-law decoding of every other byte. -/
theorem C11_alaw_decode_distinct_off_zero (b c : Nat) (hc : c < 256) :
    g711_to_linear b G711_ALAW = ulaw_to_linear c ↔ (c = 0x7F ∨ c = 0xFF) := by
  have h0 : g711_to_linear b G711_ALAW = 0 := rfl
  rw [h0, eq_comm]
  exact decode_zero_fin ⟨c, hc⟩

/-- Witness of C11 (amended): the bytes `b = 0` and `c = 0x80`. -/
theorem C11_alaw_decode_distinct_off_zero_witness :
    (0x80 : Nat) < 256 ∧
      (g711_to_linear 0 G711_ALAW = ulaw_to_linear 0x80 ↔ ((0x80 : Nat) = 0x7F ∨ (0x80 : Nat) = 0xFF)) :=
  ⟨by decide, C11_alaw_decode_distinct_off_zero 0 0x80 (by decide)⟩

/-- C12: for an input of `pcm_len` bytes seen as 16-bit samples, `encode_ulaw`
writes exactly `pcm_len / 2` output bytes (rounded down): output byte `k` is
`linear_to_ulaw` of sample `k` for every `k` below that count, and every other
output byte keeps its content. -/
theorem C12_encode_ulaw_buffer (pcm : Nat → Int) (pcm_len : Int) (ulaw_out : Nat → Nat)
    (k : Nat) (h0 : 0 ≤ pcm_len) (h1 : pcm_len ≤ 2147483647) :
    ((k : Int) < pcm_len / 2 →
      encode_ulaw pcm pcm_len ulaw_out k = linear_to_ulaw (pcm k)) ∧
    (pcm_len / 2 ≤ (k : Int) → encode_ulaw pcm pcm_len ulaw_out k = ulaw_out k) := by
  have htd : Int.tdiv pcm_len 2 = pcm_len / 2 := Int.tdiv_eq_ediv h0 (by decide)
  have hn : toInt (pcm_len / 2) = pcm_len / 2 := toInt_of_range _ (by omega) (by omega)
  have hspec := encode_ulaw_loop_spec pcm (pcm_len / 2) (by omega) (pcm_len / 2).toNat 0
    ulaw_out (le_refl _) (by rw [Int.toNat_of_nonneg (by omega)]; omega) k
  unfold encode_ulaw
  simp only [htd, hn]
  rw [hspec]
  constructor
  · intro h; rw [if_pos ⟨Int.ofNat_nonneg k, h⟩]
  · intro h; rw [if_neg (by omega)]

/-- Witness of C12: three samples in a buffer of five bytes; two bytes are written. -/
theorem C12_encode_ulaw_buffer_witness :
    (((1 : Nat) : Int) < 5 / 2 →
      encode_ulaw (fun i => [1000, -2000, 30000].getD i 0) 5 (fun _ => 7) 1
        = linear_to_ulaw ((fun i => [1000, -2000, 30000].getD i 0) 1)) ∧
    ((5 : Int) / 2 ≤ ((1 : Nat) : Int) →
      encode_ulaw (fun i => [1000, -2000, 30000].getD i 0) 5 (fun _ => 7) 1
        = (fun _ => 7) 1) :=
  C12_encode_ulaw_buffer (fun i => [1000, -2000, 30000].getD i 0) 5 (fun _ => 7) 1
    (by decide) (by decide)

/-- C13: for an input of `ulaw_len` bytes, `decode_ulaw` writes exactly `ulaw_len`
samples: output sample `k` is `ulaw_to_linear` of input byte `k` for every
`k < ulaw_len`, and every other output sample keeps its content. -/
theorem C13_decode_ulaw_buffer (ulaw_in : Nat → Nat) (ulaw_len : Int) (pcm : Nat → Int)
    (k : Nat) (h1 : ulaw_len ≤ 2147483647) :
    ((k : Int) < ulaw_len →
      decode_ulaw ulaw_in ulaw_len pcm k = ulaw_to_linear (ulaw_in k)) ∧
    (ulaw_len ≤ (k : Int) → decode_ulaw ulaw_in ulaw_len pcm k = pcm k) := by
  have hspec := decode_ulaw_loop_spec ulaw_in ulaw_len h1 ulaw_len.toNat 0
    pcm (le_refl _) (by omega) k
  unfold decode_ulaw
  rw [hspec]
  constructor
  · intro h; rw [if_pos ⟨Int.ofNat_nonneg k, h⟩]
  · intro h; rw [if_neg (by omega)]

/-- Witness of C13: a buffer of three bytes; sample `2` is the decoding of byte `2`. -/
theorem C13_decode_ulaw_buffer_witness :
    (((2 : Nat) : Int) < 3 →
      decode_ulaw (fun i => [255, 0, 0x80].getD i 0) 3 (fun _ => 7) 2
        = ulaw_to_linear ((fun i => [255, 0, 0x80].getD i 0) 2)) ∧
    ((3 : Int) ≤ ((2 : Nat) : Int) →
      decode_ulaw (fun i => [255, 0, 0x80].getD i 0) 3 (fun _ => 7) 2 = (fun _ => 7) 2) :=
  C13_decode_ulaw_buffer (fun i => [255, 0, 0x80].getD i 0) 3 (fun _ => 7) 2 (by decide)

/-- C14: for every byte `b` the decoder agrees with its arithmetic reference: with
`c = 255 - b`, `low = c mod 16`, `s = (c div 16) mod 8` and `t = (8 * low + 33) * 2 ^ s`,
`ulaw_to_linear b` is `t - 33` when `c < 128` and `33 - t` when `c ≥ 128`. -/
theorem C14_decode_reference (b : Nat) (hb : b < 256) :
    ulaw_to_linear b = ulaw_to_linear_reference b ∧
    ulaw_to_linear_reference b =
      (if 255 - b < 128 then
        (8 * (((255 - b) % 16 : Nat) : Int) + 33) * 2 ^ ((255 - b) / 16 % 8) - 33
      else 33 - (8 * (((255 - b) % 16 : Nat) : Int) + 33) * 2 ^ ((255 - b) / 16 % 8)) :=
  ⟨decode_reference_fin ⟨b, hb⟩, rfl⟩

/-- Witness of C14: the byte `0x80`, which decodes to `19551`. -/
theorem C14_decode_reference_witness :
    ulaw_to_linear 0x80 = ulaw_to_linear_reference 0x80 ∧ ulaw_to_linear_reference 0x80 = 19551 :=
  ⟨(C14_decode_reference 0x80 (by decide)).1, by decide⟩

/-- C15 (as stated, refuted): the magnitude `8159`, one above the clamp limit, has
the biased value `8192`, which fits in 16 bits and for which `search` on `seg_end`
returns the valid index `6`, although `8159 ≤ 8158` is false. -/
theorem C15_valid_index_above_clamp :
    (0 : Int) ≤ 8159 ∧ (8159 : Int) + 33 ≤ 32767 ∧ search (8159 + 33) seg_end 8 = 6 ∧
      ¬ (search (8159 + 33) seg_end 8 < 8 ↔ (8159 : Int) ≤ 8158) := by
  decide

/-- C15 (amended): for every non-negative magnitude `m` whose biased value `m + 33`
fits in 16 bits, `search (m + 33) seg_end 8` is a valid segment index (below `8`),
and it is at most `5` exactly when `m ≤ 8158`: the clamp limit is the largest
magnitude whose biased value stays within `seg_end[5] = 8191`. -/
theorem C15_clamp_limit_segment_five (m : Int) (h0 : 0 ≤ m) (h1 : m + 33 ≤ 32767) :
    search (m + 33) seg_end 8 < 8 ∧ (search (m + 33) seg_end 8 ≤ 5 ↔ m ≤ 8158) := by
  refine ⟨search_seg_end_lt_eight _ h1, ?_⟩
  rw [search_seg_end]
  constructor
  · intro h; split_ifs at h <;> omega
  · intro h; split_ifs <;> omega

/-- Witness of C15 (amended): the clamp limit `8158` itself, with index `5`. -/
theorem C15_clamp_limit_segment_five_witness :
    (0 : Int) ≤ 8158 ∧ (8158 : Int) + 33 ≤ 32767 ∧
      search (8158 + 33) seg_end 8 < 8 ∧
      (search (8158 + 33) seg_end 8 ≤ 5 ↔ (8158 : Int) ≤ 8158) :=
  ⟨by decide, by decide, C15_clamp_limit_segment_five 8158 (by decide) (by decide)⟩

/-- C16: for every 16-bit sample `x` the variable `seg` of `linear_to_ulaw` lies in
`[0, 5]`, so the test `seg >= 8` fails; bits 4-6 of the complemented output byte
hold `seg` and are never `6` or `7`; and some byte is the code of no 16-bit
sample. -/
theorem C16_segment_at_most_five (x : Int) (h1 : -32768 ≤ x) (h2 : x ≤ 32767) :
    0 ≤ ulaw_seg x ∧ ulaw_seg x ≤ 5 ∧ ¬ (ulaw_seg x ≥ 8) ∧
    ((toUChar (Int.lnot (linear_to_ulaw x)) / 16 % 8 : Nat) : Int) = ulaw_seg x ∧
    toUChar (Int.lnot (linear_to_ulaw x)) / 16 % 8 ≠ 6 ∧
    toUChar (Int.lnot (linear_to_ulaw x)) / 16 % 8 ≠ 7 ∧
    ¬ (∀ c : Nat, c < 256 →
        ∃ y : Int, -32768 ≤ y ∧ y ≤ 32767 ∧ linear_to_ulaw y = c) := by
  have hb := biased_range x
  have hc := chord_range (biased x)
  have hseg : ulaw_seg x = chord (biased x) / 16 := by
    unfold ulaw_seg
    rw [ulaw_pcm_eq x h1 h2, search_biased _ hb.1 hb.2]
  have hfield : ((toUChar (Int.lnot (linear_to_ulaw x)) / 16 % 8 : Nat) : Int)
      = chord (biased x) / 16 := by
    rw [linear_to_ulaw_eq x h1 h2, lnot_eq]
    unfold toUChar
    split_ifs <;> omega
  refine ⟨by omega, by omega, by omega, by rw [hfield, hseg], by omega, by omega, ?_⟩
  intro hsurj
  obtain ⟨y, hy1, hy2, hy⟩ := hsurj 0 (by decide)
  have hcy := chord_range (biased y)
  rw [linear_to_ulaw_eq y hy1 hy2] at hy
  split_ifs at hy <;> omega

/-- Witness of C16: the most negative sample `-32768`. -/
theorem C16_segment_at_most_five_witness :
    0 ≤ ulaw_seg (-32768) ∧ ulaw_seg (-32768) ≤ 5 ∧ ¬ (ulaw_seg (-32768) ≥ 8) ∧
    ((toUChar (Int.lnot (linear_to_ulaw (-32768))) / 16 % 8 : Nat) : Int)
      = ulaw_seg (-32768) ∧
    toUChar (Int.lnot (linear_to_ulaw (-32768))) / 16 % 8 ≠ 6 ∧
    toUChar (Int.lnot (linear_to_ulaw (-32768))) / 16 % 8 ≠ 7 ∧
    ¬ (∀ c : Nat, c < 256 →
        ∃ y : Int, -32768 ≤ y ∧ y ≤ 32767 ∧ linear_to_ulaw y = c) :=
  C16_segment_at_most_five (-32768) (by decide) (by decide)

/-- C17: for every byte `b`, the decoder evaluated in unbounded integers has its
shifted `t` in `[33, 19584]` and its result in `[-19551, 19551]`, inside the range of
`short`, and the narrowing decoder `ulaw_to_linear` returns the same value. -/
theorem C17_decode_no_overflow (b : Nat) (hb : b < 256) :
    33 ≤ ulaw_t_unbounded b ∧ ulaw_t_unbounded b ≤ 19584 ∧
    -19551 ≤ ulaw_to_linear_unbounded b ∧ ulaw_to_linear_unbounded b ≤ 19551 ∧
    ulaw_to_linear b = ulaw_to_linear_unbounded b :=
  decode_unbounded_fin ⟨b, hb⟩

/-- Witness of C17: the byte `0`, which decodes to the minimum `-19551`. -/
theorem C17_decode_no_overflow_witness :
    33 ≤ ulaw_t_unbounded 0 ∧ ulaw_t_unbounded 0 ≤ 19584 ∧
    -19551 ≤ ulaw_to_linear_unbounded 0 ∧ ulaw_to_linear_unbounded 0 ≤ 19551 ∧
    ulaw_to_linear 0 = ulaw_to_linear_unbounded 0 :=
  C17_decode_no_overflow 0 (by decide)

/-- C18: for every byte `b`, flipping bit 7 negates the decoded value:
`ulaw_to_linear (b XOR 0x80) = -ulaw_to_linear b`. -/
theorem C18_decode_odd (b : Nat) (hb : b < 256) :
    ulaw_to_linear (b ^^^ 0x80) = -ulaw_to_linear b :=
  decode_odd_fin ⟨b, hb⟩

/-- Witness of C18: the byte `0x12`. -/
theorem C18_decode_odd_witness :
    ulaw_to_linear (0x12 ^^^ 0x80) = -ulaw_to_linear 0x12 :=
  C18_decode_odd 0x12 (by decide)

/-- C19: two different bytes decode to the same value exactly when they are the two
zero codes `0x7F` and `0xFF`. -/
theorem C19_decode_injective_off_zero (b1 b2 : Nat) (h1 : b1 < 256) (h2 : b2 < 256)
    (hne : b1 ≠ b2) :
    ulaw_to_linear b1 = ulaw_to_linear b2 ↔
      ((b1 = 0x7F ∧ b2 = 0xFF) ∨ (b1 = 0xFF ∧ b2 = 0x7F)) := by
  have z7 : ulaw_to_linear 0x7F = 0 := by decide
  have zF : ulaw_to_linear 0xFF = 0 := by decide
  constructor
  · intro heq
    by_cases e1 : b1 = 0x7F
    · left
      refine ⟨e1, ?_⟩
      have hz : ulaw_to_linear b2 = 0 := by rw [← heq, e1, z7]
      rcases (decode_zero_fin ⟨b2, h2⟩).mp hz with h | h
      · exact absurd (e1.trans h.symm) hne
      · exact h
    · by_cases e2 : b2 = 0x7F
      · right
        refine ⟨?_, e2⟩
        have hz : ulaw_to_linear b1 = 0 := by rw [heq, e2, z7]
        rcases (decode_zero_fin ⟨b1, h1⟩).mp hz with h | h
        · exact absurd h e1
        · exact h
      · have c1 := decode_code_of_fin ⟨b1, h1⟩ e1
        have c2 := decode_code_of_fin ⟨b2, h2⟩ e2
        simp only at c1 c2
        rw [heq, c2] at c1
        exact absurd c1.symm hne
  · rintro (⟨e1, e2⟩ | ⟨e1, e2⟩)
    · rw [e1, e2, z7, zF]
    · rw [e1, e2, z7, zF]

/-- Witness of C19: the different bytes `0x7F` and `0xFF` both decode to `0`. -/
theorem C19_decode_injective_off_zero_witness :
    ulaw_to_linear 0x7F = ulaw_to_linear 0xFF ↔
      (((0x7F : Nat) = 0x7F ∧ (0xFF : Nat) = 0xFF) ∨ ((0x7F : Nat) = 0xFF ∧ (0xFF : Nat) = 0x7F)) :=
  C19_decode_injective_off_zero 0x7F 0xFF (by decide) (by decide) (by decide)

/-- C20: for every 16-bit sample `x`, `-32768` included, the shifted value, its
negation and the clamped magnitude computed in unbounded integers lie in the range
of `short`, the biased magnitude lies in `[33, 8191]` and is the value the
narrowing evaluation computes, and `linear_to_ulaw` with 16-bit narrowing returns
the same byte as its evaluation in unbounded integers. -/
theorem C20_encode_no_overflow (x : Int) (h1 : -32768 ≤ x) (h2 : x ≤ 32767) :
    (-32768 ≤ pcm_shifted x ∧ pcm_shifted x ≤ 32767) ∧
    (-32768 ≤ pcm_negated x ∧ pcm_negated x ≤ 32767) ∧
    (-32768 ≤ pcm_clamped x ∧ pcm_clamped x ≤ 32767) ∧
    (33 ≤ pcm_biased x ∧ pcm_biased x ≤ 8191) ∧
    ulaw_pcm x = pcm_biased x ∧
    linear_to_ulaw x = linear_to_ulaw_unbounded x := by
  have hb := biased_range x
  have hs : pcm_shifted x = x / 4 := shift_two x
  have hn : pcm_negated x = -(x / 4) := by unfold pcm_negated; rw [hs]
  have hcl : pcm_clamped x = biased x - 33 := by
    have := pcm_biased_eq x
    unfold pcm_biased at this
    omega
  refine ⟨by omega, by omega, by omega, ?_, ?_, ?_⟩
  · rw [pcm_biased_eq]; exact hb
  · rw [pcm_biased_eq, ulaw_pcm_eq x h1 h2]
  · rw [linear_to_ulaw_eq x h1 h2, linear_to_ulaw_unbounded_eq x h1 h2]

/-- Witness of C20: the most negative sample `-32768`, whose shifted value `-8192`
is negated to `8192`. -/
theorem C20_encode_no_overflow_witness :
    (-32768 ≤ pcm_shifted (-32768) ∧ pcm_shifted (-32768) ≤ 32767) ∧
    (-32768 ≤ pcm_negated (-32768) ∧ pcm_negated (-32768) ≤ 32767) ∧
    (-32768 ≤ pcm_clamped (-32768) ∧ pcm_clamped (-32768) ≤ 32767) ∧
    (33 ≤ pcm_biased (-32768) ∧ pcm_biased (-32768) ≤ 8191) ∧
    ulaw_pcm (-32768) = pcm_biased (-32768) ∧
    linear_to_ulaw (-32768) = linear_to_ulaw_unbounded (-32768) :=
  C20_encode_no_overflow (-32768) (by decide) (by decide)

end G711
